import Mathlib

/-
Verification development for the wagner-sm/monitor_titulos repository
(src/monitor.py, the multi-site variant, and src/monitor_urbs.py, the
single-site variant).

The Python sources are shallowly embedded below.  Pure repository logic is
translated function by function; external collaborators keep a narrow model:

* hashlib.sha256(...).hexdigest() is modelled by an arbitrary parameter
  hashFn : String → String.  The only facts about it ever used are that it
  is a pure function and that its output (a 64-hex-char digest) is never
  the empty string, which the code uses as its "no prior hash" sentinel;
  theorems state those facts as explicit hypotheses.
* BeautifulSoup documents are modelled as the flat list of parsed elements
  in document order; each element carries its tag and the string that
  get_text(" ", strip=True) yields for it.
* Selenium fetching and SMTP delivery are modelled as Except-valued
  parameters of the run orchestrator.
* Python str helpers (strip, rstrip, replace, split, upper) are modelled
  on lists of characters with Python's semantics; Char.isWhitespace plays
  the role of Python's whitespace set.

File state is explicit: the hash index file is either absent, present but
unparseable, or a parsed mapping; the content archive is the raw text that
was last written (or absent).
-/

namespace MonitorTitulos

/-- Python str.lstrip(): drop leading whitespace. -/
def pyLstripCs (l : List Char) : List Char := l.dropWhile Char.isWhitespace

/-- Python str.rstrip(): drop trailing whitespace. -/
def pyRstripCs (l : List Char) : List Char :=
  (l.reverse.dropWhile Char.isWhitespace).reverse

/-- Python str.strip(): drop leading and trailing whitespace. -/
def pyStripCs (l : List Char) : List Char := pyLstripCs (pyRstripCs l)

/-- Python str.split(sep) for a one-character separator. -/
def splitCh (sep : Char) : List Char → List (List Char)
  | [] => [[]]
  | c :: rest =>
    if c = sep then [] :: splitCh sep rest
    else
      match splitCh sep rest with
      | [] => [[c]]
      | p :: ps => (c :: p) :: ps

/-- The lines of a string as split at newline characters (no terminators). -/
def splitNL (l : List Char) : List (List Char) := splitCh '\n' l

/-- Python "\n".join(...). -/
def joinNL : List (List Char) → List Char
  | [] => []
  | [x] => x
  | x :: y :: rest => x ++ '\n' :: joinNL (y :: rest)

/-- Whether pat occurs as a contiguous subsequence (Python: pat in s). -/
def hasSub (pat : List Char) : List Char → Bool
  | [] => pat.isEmpty
  | c :: rest => pat.isPrefixOf (c :: rest) || hasSub pat rest

/-- Fuel-driven core of pyRemove; fuel ≥ length of the list suffices. -/
def pyRemoveAux (pat : List Char) : Nat → List Char → List Char
  | _, [] => []
  | 0, l => l
  | fuel + 1, c :: rest =>
    if pat.isPrefixOf (c :: rest) then pyRemoveAux pat fuel ((c :: rest).drop pat.length)
    else c :: pyRemoveAux pat fuel rest

/-- Python s.replace(pat, ""): remove every left-to-right non-overlapping
occurrence of pat, scanning the original string once without rescanning
the produced text. -/
def pyRemove (pat l : List Char) : List Char := pyRemoveAux pat l.length l

/-- Model of one parsed markup element: its tag name and the text that
BeautifulSoup's get_text(" ", strip=True) returns for it.  The document is
the flat list of its elements in document order; nesting is abstracted
away (a decomposed subtree's elements simply are not in the list). -/
structure Elem where
  tag : String
  text : String
deriving DecidableEq, Repr

/-- Tags removed by extract_content before collecting headings. -/
def removedTags : List String := ["script", "style", "nav", "footer", "header", "aside"]

/-- Heading tags collected by extract_content. -/
def headingTags : List String := ["h1", "h2", "h3"]

/-- The qualifying heading texts, in document order with duplicates:
texts of h1/h2/h3 elements (after removing the boilerplate tags) whose
length is at least 10.  Mirrors the titles list built by extract_content. -/
def qualifyingTitles (doc : List Elem) : List String :=
  let cleaned := doc.filter (fun e => !(removedTags.contains e.tag))
  let headings := cleaned.filter (fun e => headingTags.contains e.tag)
  (headings.map Elem.text).filter (fun t => 10 ≤ t.length)

/-- Python sorted(set(l)) for strings: deduplicate, then sort
lexicographically by code point. -/
def pySortedSet (l : List String) : List String :=
  List.insertionSort (· ≤ ·) l.dedup

/-- extract_content of both variants (identical code): collect qualifying
heading texts and join the sorted set of them with newlines.  An empty
document yields "", matching the early return on empty markup. -/
def extract_content (doc : List Elem) : String :=
  String.intercalate "\n" (pySortedSet (qualifyingTitles doc))

/-- State of data/hash.json (resp. data/urbs_hash.json): the file may be
absent, present but not valid JSON, or a parsed mapping. -/
structure HashEntry where
  hash : String
  timestamp : String
deriving DecidableEq, Repr

/-- Multi-site hash index file: url → latest hash and timestamp. -/
inductive HashFile where
  | absent
  | corrupt
  | parsed (entries : List (String × HashEntry))
deriving DecidableEq

/-- load_all_hashes of monitor.py: missing file yields the empty mapping,
and the catch-all except around json.load turns an unparseable file into
the empty mapping as well. -/
def load_all_hashes : HashFile → List (String × HashEntry)
  | .absent => []
  | .corrupt => []
  | .parsed m => m

/-- Python dict assignment d[k] = v on an association list: replace the
value of an existing key in place, otherwise append the new pair. -/
def updateAssoc {κ α : Type} [DecidableEq κ] : List (κ × α) → κ → α → List (κ × α)
  | [], k, v => [(k, v)]
  | (k', v') :: rest, k, v =>
    if k' = k then (k, v) :: rest else (k', v') :: updateAssoc rest k v

/-- all_hashes.get(url, dict()).get("hash", "") of monitor.py. -/
def getHash : List (String × HashEntry) → String → String
  | [], _ => ""
  | (k, e) :: rest, url => if k = url then e.hash else getHash rest url

/-- The "=== URL: " block-start marker of the content archive. -/
def urlMarker : List Char := "=== URL: ".data

/-- The "=== END ===" block-end marker of the content archive. -/
def endMarker : List Char := "=== END ===".data

/-- save_all_contents of monitor.py, at the character level: for each
entry write the URL marker line, the content, and the end marker followed
by a blank line. -/
def save_all_contents_cs : List (List Char × List Char) → List Char
  | [] => []
  | (u, c) :: rest =>
    urlMarker ++ u ++ '\n' :: (c ++ '\n' :: endMarker ++ '\n' :: '\n' :: save_all_contents_cs rest)

/-- Parser state of load_all_contents: current_url, current_content and
the accumulated dictionary. -/
structure LoadState where
  currentUrl : Option (List Char)
  buf : List (List Char)
  out : List (List Char × List Char)

/-- current_url = line.replace("=== URL: ", "").strip(). -/
def newUrlOfLine (line : List Char) : List Char := pyStripCs (pyRemove urlMarker line)

/-- One iteration of the line loop of load_all_contents. -/
def loadStep (st : LoadState) (line : List Char) : LoadState :=
  if urlMarker.isPrefixOf line then
    match st.currentUrl with
    | some u =>
      if u = [] then { currentUrl := some (newUrlOfLine line), buf := [], out := st.out }
      else
        { currentUrl := some (newUrlOfLine line), buf := [],
          out := updateAssoc st.out u (pyStripCs (joinNL st.buf)) }
    | none => { currentUrl := some (newUrlOfLine line), buf := [], out := st.out }
  else if endMarker.isPrefixOf line then
    match st.currentUrl with
    | some u =>
      if u = [] then st
      else { currentUrl := none, buf := [], out := updateAssoc st.out u (pyStripCs (joinNL st.buf)) }
    | none => st
  else
    { st with buf := st.buf ++ [pyRstripCs line] }

/-- The final flush of load_all_contents after the line loop. -/
def loadFinish (st : LoadState) : List (List Char × List Char) :=
  match st.currentUrl with
  | some u =>
    if u = [] then st.out else updateAssoc st.out u (pyStripCs (joinNL st.buf))
  | none => st.out

/-- The file's text as Python's line iteration sees it: each line keeps
its trailing newline; a last line without one is kept too. -/
def splitLinesAux : List Char → List Char → List (List Char)
  | [], [] => []
  | [], acc => [acc.reverse]
  | c :: rest, acc =>
    if c = '\n' then (acc.reverse ++ ['\n']) :: splitLinesAux rest []
    else splitLinesAux rest (c :: acc)

/-- load_all_contents of monitor.py at the character level. -/
def load_all_contents_cs (text : List Char) : List (List Char × List Char) :=
  loadFinish ((splitLinesAux text []).foldl loadStep ⟨none, [], []⟩)

/-- The lines a saved block contributes to the archive file: the URL
marker line, one line per newline-separated piece of the content, the end
marker line and the blank separator line. -/
def blockLines (u c : List Char) : List (List Char) :=
  (urlMarker ++ u ++ ['\n'])
    :: (splitNL c).map (fun p => p ++ ['\n']) ++ [endMarker ++ ['\n'], ['\n']]

/-- The lines of a whole saved archive. -/
def blocksLines : List (List Char × List Char) → List (List Char)
  | [] => []
  | (u, c) :: rest => blockLines u c ++ blocksLines rest

/-- save_all_contents at the String level. -/
def save_all_contents (contents : List (String × String)) : String :=
  String.mk (save_all_contents_cs (contents.map (fun p => (p.1.data, p.2.data))))

/-- load_all_contents at the String level; an absent file yields the
empty mapping. -/
def load_all_contents : Option String → List (String × String)
  | none => []
  | some t => (load_all_contents_cs t.data).map (fun p => (String.mk p.1, String.mk p.2))

/-- The two persisted artifacts of the multi-site monitor. -/
structure Files where
  hashFile : HashFile
  contentFile : Option String
deriving DecidableEq

/-- detect_change of monitor.py.  hashFn models calculate_hash (SHA-256);
now models datetime.now(LOCAL_TZ).isoformat().  Returns the changed flag
and the resulting file state. -/
def detect_change (hashFn : String → String) (now : String) (fs : Files)
    (url content : String) : Bool × Files :=
  if content = "" ∨ content.length < 50 then (false, fs)
  else
    let all_hashes := load_all_hashes fs.hashFile
    let all_contents := load_all_contents fs.contentFile
    let new_hash := hashFn content
    let old_hash := getHash all_hashes url
    let fs2 : Files :=
      { hashFile := HashFile.parsed (updateAssoc all_hashes url ⟨new_hash, now⟩),
        contentFile := some (save_all_contents (updateAssoc all_contents url content)) }
    if old_hash = "" then (false, fs2)
    else if new_hash = old_hash then (false, fs2)
    else (true, fs2)

/-- The prior stored hash the code compares against, for a given state. -/
def oldHashOf (fs : Files) (url : String) : String :=
  getHash (load_all_hashes fs.hashFile) url

/-- Modelled from the external urllib.parse.urlparse(url).netloc for
absolute URLs: the text after "//" up to the next '/', '?' or '#'. -/
def netlocChars : List Char → List Char
  | '/' :: '/' :: rest => rest.takeWhile (fun c => c != '/' && c != '?' && c != '#')
  | _ :: rest => netlocChars rest
  | [] => []

/-- The body of get_site_name on the extracted host:
domain.replace("www.", "").split(".")[0].upper(). -/
def siteNameOfHost (domain : List Char) : List Char :=
  ((pyRemove "www.".data domain).takeWhile (fun c => c != '.')).map Char.toUpper

/-- get_site_name of monitor.py. -/
def get_site_name (url : String) : String :=
  String.mk (siteNameOfHost (netlocChars url.data))

/-- Modelled from the claim's words (not from the source): strip only a
leading "www." prefix of the host, truncate at the first '.', uppercase. -/
def get_site_name_specwords (url : String) : String :=
  let host := netlocChars url.data
  let host2 := if ("www.".data).isPrefixOf host then host.drop 4 else host
  String.mk ((host2.takeWhile (fun c => c != '.')).map Char.toUpper)

/-- The per-target loop of run() in monitor.py.  fetch models
get_site_content (Selenium fetch plus extraction): it yields the extracted
content or the message of the exception it raised.  Returns the changed
URLs in detection order, the recorded error strings in order, and the
final file state. -/
def runLoop (hashFn : String → String) (now : String)
    (fetch : String → Except String String) :
    List String → Files → List String × List String × Files
  | [], fs => ([], [], fs)
  | url :: rest, fs =>
    match fetch url with
    | .error e =>
      let r := runLoop hashFn now fetch rest fs
      (r.1, (get_site_name url ++ ": " ++ e) :: r.2.1, r.2.2)
    | .ok content =>
      let d := detect_change hashFn now fs url content
      let r := runLoop hashFn now fetch rest d.2
      (if d.1 then url :: r.1 else r.1, r.2.1, r.2.2)

/-- Outcome of one run of the multi-site monitor.  emails records every
invocation of send_email_notification with its list of changed URLs. -/
structure RunResult where
  ok : Bool
  changed : List String
  errors : List String
  emails : List (List String)
  files : Files
deriving DecidableEq

/-- run() of monitor.py.  send models the SMTP delivery of
send_email_notification; a raised transport error is caught by the outer
except and turns the run's result to failure. -/
def run (hashFn : String → String) (now : String)
    (fetch : String → Except String String) (send : List String → Except String Unit)
    (sites : List String) (fs : Files) : RunResult :=
  let r := runLoop hashFn now fetch sites fs
  let changed := r.1
  if changed.isEmpty then
    { ok := true, changed := changed, errors := r.2.1, emails := [], files := r.2.2 }
  else
    match send changed with
    | .ok _ => { ok := true, changed := changed, errors := r.2.1, emails := [changed], files := r.2.2 }
    | .error _ => { ok := false, changed := changed, errors := r.2.1, emails := [changed], files := r.2.2 }

/-- Python truthiness of an optional string environment variable:
os.getenv misses (None) or the value is empty. -/
def pyFalsyStr : Option String → Bool
  | none => true
  | some s => s.isEmpty

/-- The three environment inputs read by main() in both variants. -/
structure Env where
  gmailUser : Option String
  gmailPassword : Option String
  emailRecipients : Option String
deriving DecidableEq

/-- os.getenv("EMAIL_RECIPIENTS", "").split(","): Python split always
yields at least one element; an unset variable yields [""]. -/
def recipientsOf (env : Env) : List String :=
  (splitCh ',' (env.emailRecipients.getD "").data).map String.mk

/-- main() of both variants: exit code 1 when the environment check
fires, otherwise 0 exactly when run() returned success.  runOutcome
models the value of monitor.run(). -/
def main_model (env : Env) (runOutcome : Bool) : Nat :=
  if pyFalsyStr env.gmailUser || pyFalsyStr env.gmailPassword || (recipientsOf env).isEmpty then 1
  else if runOutcome then 0 else 1

namespace URBS

/-- State of data/urbs_hash.json. -/
inductive UHashFile where
  | absent
  | corrupt
  | parsed (entry : MonitorTitulos.HashEntry)
deriving DecidableEq

/-- load_last_hash of monitor_urbs.py: a missing file yields "", but
there is no try/except, so json.load on an unparseable file raises and
the exception propagates to the caller. -/
def load_last_hash : UHashFile → Except String String
  | .absent => .ok ""
  | .corrupt => .error "invalid json"
  | .parsed e => .ok e.hash

/-- The two persisted artifacts of the URBS monitor; the content file
holds the raw content text. -/
structure UFiles where
  hashFile : UHashFile
  contentFile : Option String
deriving DecidableEq

/-- detect_change of monitor_urbs.py.  Mirrors the source order: validity
gate, hash of the new content, load_last_hash (which may raise),
save_content, then the branch on the old hash.  Note save_hash runs only
on the initial and on the changed branches. -/
def detect_change (hashFn : String → String) (now : String) (fs : UFiles)
    (content : String) : Except String (Bool × UFiles) :=
  if content = "" ∨ content.length < 100 then .ok (false, fs)
  else
    let new_hash := hashFn content
    match load_last_hash fs.hashFile with
    | .error e => .error e
    | .ok old_hash =>
      let fs1 : UFiles := { fs with contentFile := some content }
      if old_hash = "" then
        .ok (false, { fs1 with hashFile := .parsed ⟨new_hash, now⟩ })
      else if new_hash = old_hash then
        .ok (false, fs1)
      else
        .ok (true, { fs1 with hashFile := .parsed ⟨new_hash, now⟩ })

end URBS

/-- A concrete stand-in digest used to instantiate hashFn in witnesses:
prefixing keeps it injective and never empty, the two facts the abstract
hashFn hypotheses ask for. -/
def hashStub (s : String) : String := "h" ++ s

theorem hashStub_ne_empty (s : String) : hashStub s ≠ "" := by
  intro h
  have hd : (hashStub s).data = "".data := congrArg String.data h
  simp [hashStub] at hd

theorem getHash_updateAssoc (m : List (String × HashEntry)) (k : String) (e : HashEntry) :
    getHash (updateAssoc m k e) k = e.hash := by
  induction m with
  | nil => simp [updateAssoc, getHash]
  | cons p rest ih =>
    obtain ⟨k', v'⟩ := p
    by_cases hk : k' = k
    · simp [updateAssoc, hk, getHash]
    · simp [updateAssoc, hk, getHash, ih]

theorem notInvalid50 {content : String} (h : 50 ≤ content.length) :
    ¬(content = "" ∨ content.length < 50) := by
  rintro (rfl | hl)
  · exact absurd h (by decide)
  · omega

theorem notInvalid100 {content : String} (h : 100 ≤ content.length) :
    ¬(content = "" ∨ content.length < 100) := by
  rintro (rfl | hl)
  · exact absurd h (by decide)
  · omega

theorem detect_change_eq_of_valid (hashFn : String → String) (now : String) (fs : Files)
    (url content : String) (h : ¬(content = "" ∨ content.length < 50)) :
    detect_change hashFn now fs url content =
      (if oldHashOf fs url = "" then false
       else if hashFn content = oldHashOf fs url then false else true,
       { hashFile := HashFile.parsed
           (updateAssoc (load_all_hashes fs.hashFile) url ⟨hashFn content, now⟩),
         contentFile := some
           (save_all_contents (updateAssoc (load_all_contents fs.contentFile) url content)) }) := by
  unfold detect_change oldHashOf
  rw [if_neg h]
  dsimp only
  split_ifs <;> rfl

theorem oldHashOf_after (hashFn : String → String) (now : String) (fs : Files)
    (url content : String) (h : ¬(content = "" ∨ content.length < 50)) :
    oldHashOf (detect_change hashFn now fs url content).2 url = hashFn content := by
  rw [detect_change_eq_of_valid hashFn now fs url content h]
  simp [oldHashOf, load_all_hashes, getHash_updateAssoc]

/-- C1: for every target and every content string passing the
minimum-length validity gate, detect_change returns false when no prior
hash is stored for the target, false when the digest of the new content
equals the stored prior hash, and true exactly when a prior hash exists
and differs from the new digest; after a first observation an immediately
repeated call with identical content returns false, and a subsequent call
with different valid content (different digest) returns true.  The last
two conjuncts state the same first/identical/different scenario for the
single-site variant.  hashFn abstracts SHA-256; the hypothesis that its
digests are never empty reflects the 64-hex-character hexdigest. -/
theorem c1_detect_change_semantics (hashFn : String → String)
    (hne : ∀ s, hashFn s ≠ "") (now now2 : String) (fs : Files)
    (url content : String) (hlen : 50 ≤ content.length) :
    (oldHashOf fs url = "" → (detect_change hashFn now fs url content).1 = false)
    ∧ (oldHashOf fs url = hashFn content → (detect_change hashFn now fs url content).1 = false)
    ∧ ((detect_change hashFn now fs url content).1 = true ↔
        oldHashOf fs url ≠ "" ∧ oldHashOf fs url ≠ hashFn content)
    ∧ (detect_change hashFn now2 (detect_change hashFn now fs url content).2 url content).1 = false
    ∧ (∀ c2, 50 ≤ c2.length → hashFn c2 ≠ hashFn content →
        (detect_change hashFn now2 (detect_change hashFn now fs url content).2 url c2).1 = true)
    ∧ (∀ (cf : Option String) (c c2 : String), 100 ≤ c.length → 100 ≤ c2.length →
        hashFn c2 ≠ hashFn c →
        URBS.detect_change hashFn now ⟨URBS.UHashFile.absent, cf⟩ c =
          .ok (false, ⟨.parsed ⟨hashFn c, now⟩, some c⟩)
        ∧ URBS.detect_change hashFn now2 ⟨.parsed ⟨hashFn c, now⟩, some c⟩ c =
          .ok (false, ⟨.parsed ⟨hashFn c, now⟩, some c⟩)
        ∧ URBS.detect_change hashFn now2 ⟨.parsed ⟨hashFn c, now⟩, some c⟩ c2 =
          .ok (true, ⟨.parsed ⟨hashFn c2, now2⟩, some c2⟩)) := by
  have hv := notInvalid50 hlen
  have heq := detect_change_eq_of_valid hashFn now fs url content hv
  have hpost := oldHashOf_after hashFn now fs url content hv
  refine ⟨?_, ?_, ?_, ?_, ?_, ?_⟩
  · intro h0
    rw [heq]
    simp [h0]
  · intro hEq
    rw [heq]
    dsimp only
    by_cases h0 : oldHashOf fs url = ""
    · simp [h0]
    · simp [h0, hEq.symm]
  · rw [heq]
    dsimp only
    split_ifs with h1 h2
    · simp [h1]
    · simp [h1]
      exact h2.symm
    · simp [h1]
      exact fun hc => h2 hc.symm
  · rw [detect_change_eq_of_valid hashFn now2 _ url content hv]
    simp [hpost, hne content]
  · intro c2 hc2 hneq
    rw [detect_change_eq_of_valid hashFn now2 _ url c2 (notInvalid50 hc2)]
    simp [hpost, hne content, hneq]
  · intro cf c c2 hc hc2 hneq
    refine ⟨?_, ?_, ?_⟩
    · unfold URBS.detect_change
      rw [if_neg (notInvalid100 hc)]
      rfl
    · unfold URBS.detect_change
      rw [if_neg (notInvalid100 hc)]
      simp [URBS.load_last_hash, hne c]
    · unfold URBS.detect_change
      rw [if_neg (notInvalid100 hc2)]
      simp [URBS.load_last_hash, hne c, hneq]

/-- Witness for C1 at a concrete hash stand-in, target and contents. -/
theorem c1_witness :
    (detect_change hashStub "T2"
      (detect_change hashStub "T1" ⟨HashFile.absent, none⟩ "u"
        "aaaaaaaaaaaaaaaaaaaaaaaaaaaaaaaaaaaaaaaaaaaaaaaaaaaaaaaaaaaa").2 "u"
      "bbbbbbbbbbbbbbbbbbbbbbbbbbbbbbbbbbbbbbbbbbbbbbbbbbbbbbbbbbbb").1 = true := by
  have h := c1_detect_change_semantics hashStub hashStub_ne_empty "T1" "T2"
    ⟨HashFile.absent, none⟩ "u" "aaaaaaaaaaaaaaaaaaaaaaaaaaaaaaaaaaaaaaaaaaaaaaaaaaaaaaaaaaaa"
    (by decide)
  exact h.2.2.2.2.1 "bbbbbbbbbbbbbbbbbbbbbbbbbbbbbbbbbbbbbbbbbbbbbbbbbbbbbbbbbbbb"
    (by decide) (by decide)

/-- C2 counterexample: in the single-site variant, a call whose valid
content hashes to the stored prior hash rewrites the content file but
leaves the hash artifact — in particular its timestamp "T0" — untouched,
so no fresh timestamp "T1" is written, refuting the claim as stated. -/
theorem c2_counterexample :
    URBS.detect_change (fun _ => "H") "T1"
      ⟨URBS.UHashFile.parsed ⟨"H", "T0"⟩, none⟩
      "aaaaaaaaaaaaaaaaaaaaaaaaaaaaaaaaaaaaaaaaaaaaaaaaaaaaaaaaaaaaaaaaaaaaaaaaaaaaaaaaaaaaaaaaaaaaaaaaaaaa"
    = .ok (false, ⟨URBS.UHashFile.parsed ⟨"H", "T0"⟩,
        some "aaaaaaaaaaaaaaaaaaaaaaaaaaaaaaaaaaaaaaaaaaaaaaaaaaaaaaaaaaaaaaaaaaaaaaaaaaaaaaaaaaaaaaaaaaaaaaaaaaaa"⟩)
    ∧ ("T0" : String) ≠ "T1" := by
  exact ⟨rfl, by decide⟩

/-- C2 amended: in the multi-site variant a valid detect_change call
always rewrites both artifacts — the content archive with the updated
mapping and the hash index with the new hash and the fresh timestamp —
regardless of outcome.  In the single-site variant the content file is
always rewritten, but the hash and timestamp are written only on the
initial and on the changed outcome: an unchanged outcome keeps the prior
hash entry, timestamp included. -/
theorem c2_amended (hashFn : String → String) (now : String) :
    (∀ (fs : Files) (url content : String), 50 ≤ content.length →
      (detect_change hashFn now fs url content).2 =
        { hashFile := HashFile.parsed
            (updateAssoc (load_all_hashes fs.hashFile) url ⟨hashFn content, now⟩),
          contentFile := some
            (save_all_contents (updateAssoc (load_all_contents fs.contentFile) url content)) }
      ∧ getHash (load_all_hashes (detect_change hashFn now fs url content).2.hashFile) url
          = hashFn content)
    ∧ (∀ (cf : Option String) (content : String), 100 ≤ content.length →
        URBS.detect_change hashFn now ⟨URBS.UHashFile.absent, cf⟩ content =
          .ok (false, ⟨.parsed ⟨hashFn content, now⟩, some content⟩))
    ∧ (∀ (e : HashEntry) (cf : Option String) (content : String), 100 ≤ content.length →
        e.hash = "" →
        URBS.detect_change hashFn now ⟨URBS.UHashFile.parsed e, cf⟩ content =
          .ok (false, ⟨.parsed ⟨hashFn content, now⟩, some content⟩))
    ∧ (∀ (e : HashEntry) (cf : Option String) (content : String), 100 ≤ content.length →
        e.hash ≠ "" → hashFn content = e.hash →
        URBS.detect_change hashFn now ⟨URBS.UHashFile.parsed e, cf⟩ content =
          .ok (false, ⟨.parsed e, some content⟩))
    ∧ (∀ (e : HashEntry) (cf : Option String) (content : String), 100 ≤ content.length →
        e.hash ≠ "" → hashFn content ≠ e.hash →
        URBS.detect_change hashFn now ⟨URBS.UHashFile.parsed e, cf⟩ content =
          .ok (true, ⟨.parsed ⟨hashFn content, now⟩, some content⟩)) := by
  refine ⟨?_, ?_, ?_, ?_, ?_⟩
  · intro fs url content hlen
    rw [detect_change_eq_of_valid hashFn now fs url content (notInvalid50 hlen)]
    exact ⟨rfl, by simp [load_all_hashes, getHash_updateAssoc]⟩
  · intro cf content hlen
    unfold URBS.detect_change
    rw [if_neg (notInvalid100 hlen)]
    rfl
  · intro e cf content hlen hh
    unfold URBS.detect_change
    rw [if_neg (notInvalid100 hlen)]
    simp [URBS.load_last_hash, hh]
  · intro e cf content hlen hh heq
    unfold URBS.detect_change
    rw [if_neg (notInvalid100 hlen)]
    simp [URBS.load_last_hash, hh, heq]
  · intro e cf content hlen hh hneq
    unfold URBS.detect_change
    rw [if_neg (notInvalid100 hlen)]
    simp [URBS.load_last_hash, hh, hneq]

/-- Witness for C2 amended: both store writes at a concrete input. -/
theorem c2_amended_witness :
    (detect_change hashStub "T1" ⟨HashFile.absent, none⟩ "u"
      "aaaaaaaaaaaaaaaaaaaaaaaaaaaaaaaaaaaaaaaaaaaaaaaaaaaaaaaaaaaa").2 =
      { hashFile := HashFile.parsed
          [("u", ⟨hashStub "aaaaaaaaaaaaaaaaaaaaaaaaaaaaaaaaaaaaaaaaaaaaaaaaaaaaaaaaaaaa", "T1"⟩)],
        contentFile := some (save_all_contents
          [("u", "aaaaaaaaaaaaaaaaaaaaaaaaaaaaaaaaaaaaaaaaaaaaaaaaaaaaaaaaaaaa")]) } := by
  have h := (c2_amended hashStub "T1").1 ⟨HashFile.absent, none⟩ "u"
    "aaaaaaaaaaaaaaaaaaaaaaaaaaaaaaaaaaaaaaaaaaaaaaaaaaaaaaaaaaaa" (by decide)
  exact h.1

/-- C3: in both variants, content that is empty or shorter than the
minimum threshold (50 characters in the multi-site variant, 100 in the
single-site variant) yields changed=false and leaves the file state (both
the hash index and the content archive) exactly as it was, even when a
prior snapshot exists. -/
theorem c3_invalid_content_untouched (hashFn : String → String) (now : String)
    (fs : Files) (ufs : URBS.UFiles) (url content ucontent : String)
    (h1 : content.length < 50) (h2 : ucontent.length < 100) :
    detect_change hashFn now fs url content = (false, fs)
    ∧ URBS.detect_change hashFn now ufs ucontent = .ok (false, ufs) := by
  constructor
  · unfold detect_change
    rw [if_pos (Or.inr h1)]
  · unfold URBS.detect_change
    rw [if_pos (Or.inr h2)]

/-- Witness for C3 with a prior snapshot in place. -/
theorem c3_witness :
    detect_change hashStub "T1"
      ⟨HashFile.parsed [("u", ⟨"H", "T0"⟩)], some "x"⟩ "u" "short" =
      (false, ⟨HashFile.parsed [("u", ⟨"H", "T0"⟩)], some "x"⟩)
    ∧ URBS.detect_change hashStub "T1"
      ⟨URBS.UHashFile.parsed ⟨"H", "T0"⟩, some "x"⟩ "short" =
      .ok (false, ⟨URBS.UHashFile.parsed ⟨"H", "T0"⟩, some "x"⟩) :=
  c3_invalid_content_untouched hashStub "T1"
    ⟨HashFile.parsed [("u", ⟨"H", "T0"⟩)], some "x"⟩
    ⟨URBS.UHashFile.parsed ⟨"H", "T0"⟩, some "x"⟩ "u" "short" "short"
    (by decide) (by decide)

/-- C5 counterexample: in the single-site variant an existing but
unparseable hash file makes load_last_hash raise (json.load has no
try/except there), rather than degrade to the empty prior hash. -/
theorem c5_counterexample :
    URBS.load_last_hash URBS.UHashFile.corrupt = Except.error "invalid json"
    ∧ (URBS.load_last_hash URBS.UHashFile.corrupt).isOk = false := ⟨rfl, rfl⟩

/-- C5 amended: the multi-site load_all_hashes returns the empty mapping
on an absent or unparseable file and the parsed mapping otherwise; the
single-site load_last_hash returns the empty hash only for an absent
file and the stored hash for a parsed one, but an unparseable file makes
it raise instead of returning an empty prior state. -/
theorem c5_amended :
    load_all_hashes HashFile.absent = []
    ∧ load_all_hashes HashFile.corrupt = []
    ∧ (∀ m, load_all_hashes (HashFile.parsed m) = m)
    ∧ URBS.load_last_hash URBS.UHashFile.absent = Except.ok ""
    ∧ (∀ e, URBS.load_last_hash (URBS.UHashFile.parsed e) = Except.ok e.hash)
    ∧ (URBS.load_last_hash URBS.UHashFile.corrupt).isOk = false :=
  ⟨rfl, rfl, fun _ => rfl, rfl, fun _ => rfl, rfl⟩

/-- C7: in every run of the multi-site variant the notifier is invoked at
most once; exactly once, with exactly the changed targets in detection
order, when some target changed, and never when none changed. -/
theorem c7_single_notification (hashFn : String → String) (now : String)
    (fetch : String → Except String String) (send : List String → Except String Unit)
    (sites : List String) (fs : Files) :
    (run hashFn now fetch send sites fs).emails.length ≤ 1
    ∧ ((run hashFn now fetch send sites fs).changed = [] →
        (run hashFn now fetch send sites fs).emails = [])
    ∧ ((run hashFn now fetch send sites fs).changed ≠ [] →
        (run hashFn now fetch send sites fs).emails
          = [(run hashFn now fetch send sites fs).changed]) := by
  unfold run
  dsimp only
  by_cases h : (runLoop hashFn now fetch sites fs).1.isEmpty
  · simp [h]
    simpa [List.isEmpty_iff] using h
  · cases hs : send (runLoop hashFn now fetch sites fs).1 <;>
      simp [h, hs] <;> simpa [List.isEmpty_iff] using h

/-- Witness for C7: a run in which the only configured site changes sends
exactly one notification listing exactly that site. -/
theorem c7_witness :
    (run hashStub "T1" (fun _ => Except.ok
        "aaaaaaaaaaaaaaaaaaaaaaaaaaaaaaaaaaaaaaaaaaaaaaaaaaaaaaaaaaaa")
      (fun _ => Except.ok ()) ["https://a.com"]
      ⟨HashFile.parsed [("https://a.com", ⟨"old", "T0"⟩)], none⟩).emails
    = [(run hashStub "T1" (fun _ => Except.ok
        "aaaaaaaaaaaaaaaaaaaaaaaaaaaaaaaaaaaaaaaaaaaaaaaaaaaaaaaaaaaa")
      (fun _ => Except.ok ()) ["https://a.com"]
      ⟨HashFile.parsed [("https://a.com", ⟨"old", "T0"⟩)], none⟩).changed] := by
  exact (c7_single_notification hashStub "T1"
    (fun _ => Except.ok "aaaaaaaaaaaaaaaaaaaaaaaaaaaaaaaaaaaaaaaaaaaaaaaaaaaaaaaaaaaa")
    (fun _ => Except.ok ()) ["https://a.com"]
    ⟨HashFile.parsed [("https://a.com", ⟨"old", "T0"⟩)], none⟩).2.2 (by decide)

/-- C9 evaluation: with sender credentials set but EMAIL_RECIPIENTS unset,
the recipients list parses to the truthy singleton containing the empty
string, so the startup validation does not fire and the exit code follows
run()'s outcome instead of being a non-zero immediate exit; the
credential checks themselves do fire. -/
theorem c9_code_bug_eval :
    recipientsOf ⟨some "u", some "p", none⟩ = [""]
    ∧ main_model ⟨some "u", some "p", none⟩ true = 0
    ∧ main_model ⟨some "u", some "p", none⟩ false = 1
    ∧ main_model ⟨some "u", some "p", some ""⟩ true = 0
    ∧ main_model ⟨none, some "p", some "a@b"⟩ true = 1
    ∧ main_model ⟨some "u", some "", some "a@b"⟩ true = 1
    ∧ main_model ⟨some "u", some "p", some "a@b"⟩ true = 0
    ∧ main_model ⟨some "u", some "p", some "a@b"⟩ false = 1 := by
  refine ⟨by decide, by decide, by decide, by decide, by decide, by decide, by decide, by decide⟩

theorem runLoop_append (hashFn : String → String) (now : String)
    (fetch : String → Except String String) (l1 l2 : List String) (fs : Files) :
    runLoop hashFn now fetch (l1 ++ l2) fs =
      ((runLoop hashFn now fetch l1 fs).1
         ++ (runLoop hashFn now fetch l2 (runLoop hashFn now fetch l1 fs).2.2).1,
       (runLoop hashFn now fetch l1 fs).2.1
         ++ (runLoop hashFn now fetch l2 (runLoop hashFn now fetch l1 fs).2.2).2.1,
       (runLoop hashFn now fetch l2 (runLoop hashFn now fetch l1 fs).2.2).2.2) := by
  induction l1 generalizing fs with
  | nil => simp [runLoop]
  | cons url rest ih =>
    cases hf : fetch url with
    | error e => simp [runLoop, hf, ih]
    | ok content =>
      simp [runLoop, hf, ih]
      split <;> simp

/-- C6: in the multi-site run loop, a target whose fetch/extract step
raises an error contributes exactly one recorded error string, formatted
from its display name and the error message, and the loop processes the
targets before and after it exactly as it would have, threading the file
state past the failed target; if the remaining targets produce any
change, the single notification is still sent with those targets. -/
theorem c6_error_isolation (hashFn : String → String) (now : String)
    (fetch : String → Except String String) (send : List String → Except String Unit)
    (pre post : List String) (url e : String) (fs : Files)
    (hf : fetch url = Except.error e) :
    runLoop hashFn now fetch (pre ++ url :: post) fs =
      ((runLoop hashFn now fetch pre fs).1
         ++ (runLoop hashFn now fetch post (runLoop hashFn now fetch pre fs).2.2).1,
       (runLoop hashFn now fetch pre fs).2.1
         ++ (get_site_name url ++ ": " ++ e)
           :: (runLoop hashFn now fetch post (runLoop hashFn now fetch pre fs).2.2).2.1,
       (runLoop hashFn now fetch post (runLoop hashFn now fetch pre fs).2.2).2.2)
    ∧ (get_site_name url ++ ": " ++ e)
        ∈ (run hashFn now fetch send (pre ++ url :: post) fs).errors
    ∧ (run hashFn now fetch send (pre ++ url :: post) fs).changed =
        (runLoop hashFn now fetch pre fs).1
          ++ (runLoop hashFn now fetch post (runLoop hashFn now fetch pre fs).2.2).1
    ∧ ((runLoop hashFn now fetch pre fs).1
          ++ (runLoop hashFn now fetch post (runLoop hashFn now fetch pre fs).2.2).1 ≠ [] →
        (run hashFn now fetch send (pre ++ url :: post) fs).emails =
          [(runLoop hashFn now fetch pre fs).1
            ++ (runLoop hashFn now fetch post (runLoop hashFn now fetch pre fs).2.2).1]) := by
  have hstep : runLoop hashFn now fetch (url :: post) (runLoop hashFn now fetch pre fs).2.2 =
      ((runLoop hashFn now fetch post (runLoop hashFn now fetch pre fs).2.2).1,
       (get_site_name url ++ ": " ++ e)
         :: (runLoop hashFn now fetch post (runLoop hashFn now fetch pre fs).2.2).2.1,
       (runLoop hashFn now fetch post (runLoop hashFn now fetch pre fs).2.2).2.2) := by
    simp [runLoop, hf]
  have hall : runLoop hashFn now fetch (pre ++ url :: post) fs =
      ((runLoop hashFn now fetch pre fs).1
         ++ (runLoop hashFn now fetch post (runLoop hashFn now fetch pre fs).2.2).1,
       (runLoop hashFn now fetch pre fs).2.1
         ++ (get_site_name url ++ ": " ++ e)
           :: (runLoop hashFn now fetch post (runLoop hashFn now fetch pre fs).2.2).2.1,
       (runLoop hashFn now fetch post (runLoop hashFn now fetch pre fs).2.2).2.2) := by
    rw [runLoop_append hashFn now fetch pre (url :: post) fs, hstep]
  refine ⟨hall, ?_, ?_, ?_⟩
  · unfold run
    dsimp only
    rw [hall]
    by_cases h : ((runLoop hashFn now fetch pre fs).1
        ++ (runLoop hashFn now fetch post (runLoop hashFn now fetch pre fs).2.2).1).isEmpty
    · simp [h]
    · cases hs : send ((runLoop hashFn now fetch pre fs).1
          ++ (runLoop hashFn now fetch post (runLoop hashFn now fetch pre fs).2.2).1) <;>
        simp [h, hs]
  · unfold run
    dsimp only
    rw [hall]
    by_cases h : ((runLoop hashFn now fetch pre fs).1
        ++ (runLoop hashFn now fetch post (runLoop hashFn now fetch pre fs).2.2).1).isEmpty
    · simp [h]
    · cases hs : send ((runLoop hashFn now fetch pre fs).1
          ++ (runLoop hashFn now fetch post (runLoop hashFn now fetch pre fs).2.2).1) <;>
        simp [h, hs]
  · intro hne
    unfold run
    dsimp only
    rw [hall]
    have h : ¬ ((runLoop hashFn now fetch pre fs).1
        ++ (runLoop hashFn now fetch post (runLoop hashFn now fetch pre fs).2.2).1).isEmpty := by
      simpa [List.isEmpty_iff] using hne
    cases hs : send ((runLoop hashFn now fetch pre fs).1
        ++ (runLoop hashFn now fetch post (runLoop hashFn now fetch pre fs).2.2).1) <;>
      simp [h, hs]

/-- Witness for C6: the first site's fetch raises, the second site still
gets processed, changes, and the one notification names exactly it. -/
theorem c6_witness :
    (run hashStub "T1"
      (fun u => if u = "https://a.com" then Except.error "boom"
        else Except.ok "aaaaaaaaaaaaaaaaaaaaaaaaaaaaaaaaaaaaaaaaaaaaaaaaaaaaaaaaaaaa")
      (fun _ => Except.ok ()) ([] ++ "https://a.com" :: ["https://b.com"])
      ⟨HashFile.parsed [("https://b.com", ⟨"old", "T0"⟩)], none⟩).emails
    = [["https://b.com"]] := by
  have h := c6_error_isolation hashStub "T1"
    (fun u => if u = "https://a.com" then Except.error "boom"
      else Except.ok "aaaaaaaaaaaaaaaaaaaaaaaaaaaaaaaaaaaaaaaaaaaaaaaaaaaaaaaaaaaa")
    (fun _ => Except.ok ()) [] ["https://b.com"] "https://a.com" "boom"
    ⟨HashFile.parsed [("https://b.com", ⟨"old", "T0"⟩)], none⟩ rfl
  exact (h.2.2.2 (by decide)).trans (by decide)

theorem pyRemoveAux_of_not_hasSub (pat : List Char) :
    ∀ (fuel : Nat) (l : List Char), hasSub pat l = false → pyRemoveAux pat fuel l = l := by
  intro fuel l
  induction l generalizing fuel with
  | nil => intro _; cases fuel <;> rfl
  | cons c rest ih =>
    intro h
    rw [hasSub, Bool.or_eq_false_iff] at h
    cases fuel with
    | zero => rfl
    | succ n =>
      rw [pyRemoveAux, if_neg (by simp [h.1])]
      rw [ih n h.2]

theorem pyRemove_of_not_hasSub (pat l : List Char) (h : hasSub pat l = false) :
    pyRemove pat l = l :=
  pyRemoveAux_of_not_hasSub pat l.length l h

theorem pyRemove_append_head (pat rest : List Char) (hp : pat ≠ [])
    (h : hasSub pat rest = false) : pyRemove pat (pat ++ rest) = rest := by
  obtain ⟨p, pt, rfl⟩ := List.exists_cons_of_ne_nil hp
  have hdrop : ((p :: pt) ++ rest).drop (p :: pt).length = rest := List.drop_left _ _
  have hpre : (p :: pt).isPrefixOf ((p :: pt) ++ rest) = true := by
    rw [List.isPrefixOf_iff_prefix]
    exact List.prefix_append _ _
  unfold pyRemove
  simp only [List.cons_append, List.length_cons]
  rw [pyRemoveAux, if_pos (by simp)]
  rw [show (p :: (pt ++ rest)).drop (p :: pt).length = rest from by simp]
  exact pyRemoveAux_of_not_hasSub (p :: pt) _ rest h

/-- C8 counterexample: the host awww.bc.com has no leading "www." prefix,
so under the claim the display name would be AWWW; the code's
replace("www.", "") removes the interior occurrence and produces ABC. -/
theorem c8_counterexample :
    get_site_name "https://awww.bc.com/page" = "ABC"
    ∧ get_site_name_specwords "https://awww.bc.com/page" = "AWWW"
    ∧ get_site_name "https://awww.bc.com/page"
        ≠ get_site_name_specwords "https://awww.bc.com/page" := by
  refine ⟨by decide, by decide, by decide⟩

/-- C8 amended: the code removes every left-to-right non-overlapping
occurrence of the substring "www." anywhere in the host, then truncates
at the first '.' and uppercases.  When the host contains "www." only as
a leading prefix, or not at all, this coincides with the claim's
prefix-stripping description, as the two conjuncts state. -/
theorem c8_amended :
    (∀ rest : List Char, hasSub "www.".data rest = false →
      siteNameOfHost ("www.".data ++ rest)
        = (rest.takeWhile (fun c => c != '.')).map Char.toUpper)
    ∧ (∀ host : List Char, hasSub "www.".data host = false →
      siteNameOfHost host = (host.takeWhile (fun c => c != '.')).map Char.toUpper) := by
  constructor
  · intro rest h
    unfold siteNameOfHost
    rw [pyRemove_append_head _ _ (by decide) h]
  · intro host h
    unfold siteNameOfHost
    rw [pyRemove_of_not_hasSub _ _ h]

/-- Witness for C8 amended on the host www.bc.com. -/
theorem c8_amended_witness :
    siteNameOfHost ("www.".data ++ "bc.com".data)
      = (("bc.com".data).takeWhile (fun c => c != '.')).map Char.toUpper :=
  c8_amended.1 ("bc.com".data) (by decide)

theorem pySortedSet_eq_of_toFinset_eq (l1 l2 : List String)
    (h : l1.toFinset = l2.toFinset) : pySortedSet l1 = pySortedSet l2 := by
  have hmem : ∀ a, a ∈ l1.dedup ↔ a ∈ l2.dedup := by
    intro a
    rw [List.mem_dedup, List.mem_dedup, ← List.mem_toFinset, h, List.mem_toFinset]
  have hperm : l1.dedup.Perm l2.dedup :=
    (List.perm_ext_iff_of_nodup (List.nodup_dedup l1) (List.nodup_dedup l2)).2 hmem
  exact List.eq_of_perm_of_sorted
    (((List.perm_insertionSort (· ≤ ·) l1.dedup).trans hperm).trans
      (List.perm_insertionSort (· ≤ ·) l2.dedup).symm)
    (List.sorted_insertionSort (· ≤ ·) l1.dedup)
    (List.sorted_insertionSort (· ≤ ·) l2.dedup)

/-- C4: the extractor's output depends only on the set of qualifying
heading texts: any two documents whose lists of qualifying heading texts
have the same underlying set — in particular any permutation of the
heading elements and any duplication of identical headings — produce the
same output string. -/
theorem c4_extract_order_invariant (d1 d2 : List Elem)
    (h : (qualifyingTitles d1).toFinset = (qualifyingTitles d2).toFinset) :
    extract_content d1 = extract_content d2 := by
  unfold extract_content
  rw [pySortedSet_eq_of_toFinset_eq (qualifyingTitles d1) (qualifyingTitles d2) h]

/-- Witness for C4: reordering the two headings and duplicating one of
them (and littering the page with short or removed-tag noise) leaves the
extracted fingerprint unchanged. -/
theorem c4_witness :
    extract_content
      [⟨"h1", "Hello World Story"⟩, ⟨"h2", "Another Big Headline"⟩, ⟨"h3", "short"⟩]
    = extract_content
      [⟨"h2", "Another Big Headline"⟩, ⟨"nav", "Hello Noise Noise Noise"⟩,
       ⟨"h1", "Hello World Story"⟩, ⟨"h2", "Hello World Story"⟩] :=
  c4_extract_order_invariant
    [⟨"h1", "Hello World Story"⟩, ⟨"h2", "Another Big Headline"⟩, ⟨"h3", "short"⟩]
    [⟨"h2", "Another Big Headline"⟩, ⟨"nav", "Hello Noise Noise Noise"⟩,
     ⟨"h1", "Hello World Story"⟩, ⟨"h2", "Hello World Story"⟩]
    (by decide)

theorem pyRstripCs_append_ws (l : List Char) (c : Char) (hc : c.isWhitespace = true) :
    pyRstripCs (l ++ [c]) = pyRstripCs l := by
  unfold pyRstripCs
  rw [List.reverse_append]
  simp [List.dropWhile_cons, hc]

theorem pyRstripCs_isPrefix (l : List Char) : pyRstripCs l <+: l := by
  have h : List.dropWhile Char.isWhitespace l.reverse <:+ l.reverse :=
    List.dropWhile_suffix _
  have h2 := List.reverse_prefix.mpr h
  simpa [pyRstripCs] using h2

theorem pyStripCs_self_parts (l : List Char) (h : pyStripCs l = l) :
    pyRstripCs l = l ∧ pyLstripCs l = l := by
  have hpre : pyRstripCs l <+: l := pyRstripCs_isPrefix l
  have hlen1 : (pyStripCs l).length ≤ (pyRstripCs l).length := by
    unfold pyStripCs pyLstripCs
    have hs : List.dropWhile Char.isWhitespace (pyRstripCs l) <:+ pyRstripCs l :=
      List.dropWhile_suffix Char.isWhitespace
    simpa using hs.length_le
  have hlen2 : (pyRstripCs l).length ≤ l.length := hpre.length_le
  have hlen : (pyRstripCs l).length = l.length := by
    rw [h] at hlen1
    omega
  have hr : pyRstripCs l = l := hpre.eq_of_length hlen
  refine ⟨hr, ?_⟩
  have := h
  unfold pyStripCs at this
  rw [hr] at this
  exact this

theorem pyStripCs_append_nl (l : List Char) (h : pyStripCs l = l) :
    pyStripCs (l ++ ['\n']) = l := by
  obtain ⟨hr, hl⟩ := pyStripCs_self_parts l h
  unfold pyStripCs
  rw [pyRstripCs_append_ws l '\n' (by decide), hr]
  exact hl

theorem isPrefixOf_append_nl_false (pat : List Char) :
    ∀ (p : List Char), '\n' ∉ pat → pat.isPrefixOf p = false →
      pat.isPrefixOf (p ++ ['\n']) = false := by
  induction pat with
  | nil => intro p _ h; simp [List.isPrefixOf] at h
  | cons a pat' ih =>
    intro p hnl h
    cases p with
    | nil =>
      have ha : (a == '\n') = false := by
        have : a ≠ '\n' := fun hh => hnl (hh ▸ List.mem_cons_self a pat')
        simpa using this
      simp [List.isPrefixOf, ha]
    | cons b p' =>
      rw [List.cons_append, List.isPrefixOf]
      rw [List.isPrefixOf] at h
      rcases Bool.and_eq_false_iff.1 h with hab | hrest
      · simp [hab]
      · have hnl' : '\n' ∉ pat' := fun hm => hnl (List.mem_cons_of_mem a hm)
        simp [ih p' hnl' hrest]

theorem hasSub_append_nl_false (pat : List Char) (hne : pat ≠ []) (hnl : '\n' ∉ pat) :
    ∀ (u : List Char), hasSub pat u = false → hasSub pat (u ++ ['\n']) = false := by
  intro u
  induction u with
  | nil =>
    intro _
    obtain ⟨a, pat', rfl⟩ := List.exists_cons_of_ne_nil hne
    have ha : (a == '\n') = false := by
      have : a ≠ '\n' := fun hh => hnl (hh ▸ List.mem_cons_self a pat')
      simpa using this
    simp [hasSub, List.isPrefixOf, ha]
  | cons c u' ih =>
    intro h
    rw [hasSub, Bool.or_eq_false_iff] at h
    rw [List.cons_append, hasSub, Bool.or_eq_false_iff]
    refine ⟨?_, ih h.2⟩
    have := isPrefixOf_append_nl_false pat (c :: u') hnl h.1
    simpa using this

theorem splitNL_cons_form (c : List Char) : ∃ p ps, splitNL c = p :: ps := by
  cases c with
  | nil => exact ⟨[], [], rfl⟩
  | cons ch rest =>
    by_cases h : ch = '\n'
    · exact ⟨[], splitCh '\n' rest, by simp [splitNL, splitCh, h]⟩
    · cases hs : splitCh '\n' rest with
      | nil => exact ⟨[ch], [], by simp [splitNL, splitCh, h, hs]⟩
      | cons p ps => exact ⟨ch :: p, ps, by simp [splitNL, splitCh, h, hs]⟩

theorem joinNL_splitNL (c : List Char) : joinNL (splitNL c) = c := by
  induction c with
  | nil => rfl
  | cons ch rest ih =>
    by_cases h : ch = '\n'
    · subst h
      have hform : splitNL ('\n' :: rest) = [] :: splitNL rest := by
        simp [splitNL, splitCh]
      rw [hform]
      obtain ⟨p, ps, hps⟩ := splitNL_cons_form rest
      rw [hps]
      rw [joinNL]
      rw [← hps, ih]
      simp
    · cases hs : splitCh '\n' rest with
      | nil =>
        exact absurd hs (by obtain ⟨p, ps, hps⟩ := splitNL_cons_form rest; simp [splitNL] at hps; simp [hps])
      | cons p ps =>
        have hform : splitNL (ch :: rest) = (ch :: p) :: ps := by
          simp [splitNL, splitCh, h, hs]
        rw [hform]
        cases ps with
        | nil =>
          rw [joinNL]
          have : joinNL (splitNL rest) = rest := ih
          rw [show splitNL rest = [p] from hs] at this
          rw [joinNL] at this
          rw [this]
        | cons q qs =>
          rw [joinNL]
          have : joinNL (splitNL rest) = rest := ih
          rw [show splitNL rest = p :: q :: qs from hs] at this
          rw [joinNL] at this
          rw [← this]
          simp

theorem splitLinesAux_line (x : List Char) (hx : '\n' ∉ x) :
    ∀ (rest acc : List Char), splitLinesAux (x ++ '\n' :: rest) acc
      = (acc.reverse ++ x ++ ['\n']) :: splitLinesAux rest [] := by
  induction x with
  | nil =>
    intro rest acc
    simp [splitLinesAux]
  | cons c x' ih =>
    intro rest acc
    have hc : c ≠ '\n' := fun h => hx (h ▸ List.mem_cons_self c x')
    rw [List.cons_append, splitLinesAux, if_neg hc]
    rw [ih (fun hm => hx (List.mem_cons_of_mem c hm)) rest (c :: acc)]
    simp

theorem splitLinesAux_content (c : List Char) :
    ∀ (tail acc : List Char),
      splitLinesAux (c ++ '\n' :: tail) acc =
        ((acc.reverse ++ (splitNL c).headD [] ++ ['\n'])
          :: ((splitNL c).tail.map (fun p => p ++ ['\n']))) ++ splitLinesAux tail [] := by
  induction c with
  | nil =>
    intro tail acc
    simp [splitLinesAux, splitNL, splitCh]
  | cons ch c' ih =>
    intro tail acc
    obtain ⟨p, ps, hps⟩ := splitNL_cons_form c'
    by_cases h : ch = '\n'
    · subst h
      rw [List.cons_append, splitLinesAux, if_pos rfl]
      rw [ih tail []]
      have hform : splitNL ('\n' :: c') = [] :: splitNL c' := by simp [splitNL, splitCh]
      rw [hform, hps]
      simp
    · rw [List.cons_append, splitLinesAux, if_neg h]
      rw [ih tail (ch :: acc)]
      have hform : splitNL (ch :: c') = (ch :: p) :: ps := by
        unfold splitNL at hps
        simp [splitNL, splitCh, h, hps]
      rw [hps, hform]
      simp

theorem lines_save (mc : List (List Char × List Char))
    (h : ∀ p ∈ mc, '\n' ∉ p.1) :
    splitLinesAux (save_all_contents_cs mc) [] = blocksLines mc := by
  induction mc with
  | nil => rfl
  | cons pc rest ih =>
    obtain ⟨u, c⟩ := pc
    have hu : '\n' ∉ u := h (u, c) (List.mem_cons_self _ _)
    have hmark : '\n' ∉ urlMarker ++ u := by
      intro hm
      rcases List.mem_append.1 hm with hm1 | hm2
      · exact absurd hm1 (by decide)
      · exact hu hm2
    have hend : ('\n' : Char) ∉ endMarker := by decide
    rw [save_all_contents_cs]
    have e1 : urlMarker ++ u ++ '\n' :: (c ++ '\n' :: endMarker ++ '\n' :: '\n' :: save_all_contents_cs rest)
        = (urlMarker ++ u) ++ '\n' :: (c ++ '\n' :: (endMarker ++ '\n' :: '\n' :: save_all_contents_cs rest)) := by
      simp
    rw [e1]
    rw [splitLinesAux_line (urlMarker ++ u) hmark _ []]
    rw [splitLinesAux_content c (endMarker ++ '\n' :: '\n' :: save_all_contents_cs rest) []]
    rw [show endMarker ++ '\n' :: '\n' :: save_all_contents_cs rest
        = endMarker ++ '\n' :: ('\n' :: save_all_contents_cs rest) from rfl]
    rw [splitLinesAux_line endMarker hend _ []]
    rw [show ('\n' : Char) :: save_all_contents_cs rest
        = [] ++ '\n' :: save_all_contents_cs rest from rfl]
    rw [splitLinesAux_line [] (by simp) _ []]
    rw [ih (fun q hq => h q (List.mem_cons_of_mem _ hq))]
    rw [blocksLines, blockLines]
    obtain ⟨p, ps, hps⟩ := splitNL_cons_form c
    rw [hps]
    simp

theorem updateAssoc_of_not_mem {κ α : Type} [DecidableEq κ] (m : List (κ × α)) (k : κ) (v : α)
    (h : k ∉ m.map Prod.fst) : updateAssoc m k v = m ++ [(k, v)] := by
  induction m with
  | nil => rfl
  | cons p rest ih =>
    obtain ⟨k', v'⟩ := p
    rw [List.map_cons, List.mem_cons, not_or] at h
    rw [updateAssoc, if_neg (fun he => h.1 he.symm), ih h.2]
    rfl

theorem foldl_content_lines (u : List Char) (out : List (List Char × List Char)) :
    ∀ (parts : List (List Char)) (buf : List (List Char)),
      (∀ p ∈ parts, urlMarker.isPrefixOf p = false ∧ endMarker.isPrefixOf p = false
        ∧ pyRstripCs p = p) →
      List.foldl loadStep ⟨some u, buf, out⟩ (parts.map (fun p => p ++ ['\n']))
        = ⟨some u, buf ++ parts, out⟩ := by
  intro parts
  induction parts with
  | nil => intro buf _; simp
  | cons p parts' ih =>
    intro buf hp
    obtain ⟨h1, h2, h3⟩ := hp p (List.mem_cons_self _ _)
    rw [List.map_cons, List.foldl_cons]
    have hstep : loadStep ⟨some u, buf, out⟩ (p ++ ['\n']) = ⟨some u, buf ++ [p], out⟩ := by
      unfold loadStep
      rw [if_neg (by simp [isPrefixOf_append_nl_false urlMarker p (by decide) h1])]
      rw [if_neg (by simp [isPrefixOf_append_nl_false endMarker p (by decide) h2])]
      rw [pyRstripCs_append_ws p '\n' (by decide), h3]
    rw [hstep, ih (buf ++ [p]) (fun q hq => hp q (List.mem_cons_of_mem _ hq))]
    simp

theorem foldl_block (u c : List Char) (buf : List (List Char))
    (out : List (List Char × List Char))
    (hune : u ≠ []) (hustrip : pyStripCs u = u) (_hunl : '\n' ∉ u)
    (husub : hasSub urlMarker u = false)
    (hcstrip : pyStripCs c = c)
    (hlines : ∀ p ∈ splitNL c, urlMarker.isPrefixOf p = false
      ∧ endMarker.isPrefixOf p = false ∧ pyRstripCs p = p) :
    List.foldl loadStep ⟨none, buf, out⟩ (blockLines u c) = ⟨none, [[]], updateAssoc out u c⟩ := by
  rw [blockLines, List.foldl_append]
  have hstep1 : loadStep ⟨none, buf, out⟩ (urlMarker ++ u ++ ['\n']) = ⟨some u, [], out⟩ := by
    unfold loadStep
    have hassoc : urlMarker ++ u ++ ['\n'] = urlMarker ++ (u ++ ['\n']) := by simp
    have hpre : urlMarker.isPrefixOf (urlMarker ++ u ++ ['\n']) = true := by
      rw [List.isPrefixOf_iff_prefix, hassoc]
      exact List.prefix_append _ _
    rw [if_pos hpre]
    have hnew : newUrlOfLine (urlMarker ++ u ++ ['\n']) = u := by
      unfold newUrlOfLine
      rw [hassoc]
      rw [pyRemove_append_head urlMarker (u ++ ['\n']) (by decide)
        (hasSub_append_nl_false urlMarker (by decide) (by decide) u husub)]
      exact pyStripCs_append_nl u hustrip
    rw [hnew]
  have hinner : List.foldl loadStep ⟨none, buf, out⟩
      ((urlMarker ++ u ++ ['\n']) :: List.map (fun p => p ++ ['\n']) (splitNL c))
      = ⟨some u, splitNL c, out⟩ := by
    rw [List.foldl_cons, hstep1, foldl_content_lines u out (splitNL c) [] hlines]
    simp
  rw [hinner]
  have hstep2 : loadStep ⟨some u, splitNL c, out⟩ (endMarker ++ ['\n'])
      = ⟨none, [], updateAssoc out u c⟩ := by
    unfold loadStep
    rw [if_neg (by decide)]
    have hpre : endMarker.isPrefixOf (endMarker ++ ['\n']) = true := by
      rw [List.isPrefixOf_iff_prefix]
      exact List.prefix_append _ _
    rw [if_pos hpre]
    rw [show pyStripCs (joinNL (splitNL c)) = c from by rw [joinNL_splitNL]; exact hcstrip]
    dsimp only
    rw [if_neg hune]
  have hstep3 : loadStep ⟨none, [], updateAssoc out u c⟩ ['\n']
      = ⟨none, [[]], updateAssoc out u c⟩ := by
    unfold loadStep
    rw [if_neg (by decide), if_neg (by decide)]
    rw [show pyRstripCs ['\n'] = [] from by decide]
    rfl
  rw [List.foldl_cons, hstep2, List.foldl_cons, hstep3]
  rfl

theorem foldl_blocks :
    ∀ (mc out : List (List Char × List Char)) (buf : List (List Char)),
      (mc.map Prod.fst).Nodup →
      (∀ p ∈ mc, p.1 ∉ out.map Prod.fst) →
      (∀ p ∈ mc, p.1 ≠ [] ∧ pyStripCs p.1 = p.1 ∧ '\n' ∉ p.1
        ∧ hasSub urlMarker p.1 = false) →
      (∀ p ∈ mc, pyStripCs p.2 = p.2 ∧ ∀ q ∈ splitNL p.2,
        urlMarker.isPrefixOf q = false ∧ endMarker.isPrefixOf q = false ∧ pyRstripCs q = q) →
      loadFinish (List.foldl loadStep ⟨none, buf, out⟩ (blocksLines mc)) = out ++ mc := by
  intro mc
  induction mc with
  | nil =>
    intro out buf _ _ _ _
    simp [blocksLines, loadFinish]
  | cons pc rest ih =>
    obtain ⟨u, c⟩ := pc
    intro out buf hnodup hdisj hkey hval
    obtain ⟨hune, hustrip, hunl, husub⟩ := hkey (u, c) (List.mem_cons_self _ _)
    obtain ⟨hcstrip, hlines⟩ := hval (u, c) (List.mem_cons_self _ _)
    rw [blocksLines, List.foldl_append]
    rw [foldl_block u c buf out hune hustrip hunl husub hcstrip hlines]
    have hout : updateAssoc out u c = out ++ [(u, c)] :=
      updateAssoc_of_not_mem out u c (hdisj (u, c) (List.mem_cons_self _ _))
    rw [hout]
    rw [List.map_cons] at hnodup
    have hnotin : u ∉ rest.map Prod.fst := (List.nodup_cons.1 hnodup).1
    rw [ih (out ++ [(u, c)]) [[]] (List.nodup_cons.1 hnodup).2
      (fun p hp => by
        rw [List.map_append, List.mem_append, not_or]
        refine ⟨hdisj p (List.mem_cons_of_mem _ hp), ?_⟩
        simp only [List.map_cons, List.map_nil, List.mem_singleton]
        intro he
        exact hnotin (he ▸ List.mem_map_of_mem Prod.fst hp))
      (fun p hp => hkey p (List.mem_cons_of_mem _ hp))
      (fun p hp => hval p (List.mem_cons_of_mem _ hp))]
    simp

theorem load_save_cs (mc : List (List Char × List Char))
    (hnodup : (mc.map Prod.fst).Nodup)
    (hkey : ∀ p ∈ mc, p.1 ≠ [] ∧ pyStripCs p.1 = p.1 ∧ '\n' ∉ p.1
      ∧ hasSub urlMarker p.1 = false)
    (hval : ∀ p ∈ mc, pyStripCs p.2 = p.2 ∧ ∀ q ∈ splitNL p.2,
      urlMarker.isPrefixOf q = false ∧ endMarker.isPrefixOf q = false ∧ pyRstripCs q = q) :
    load_all_contents_cs (save_all_contents_cs mc) = mc := by
  unfold load_all_contents_cs
  rw [lines_save mc (fun p hp => (hkey p hp).2.2.1)]
  have h := foldl_blocks mc [] [] hnodup (by simp) hkey hval
  simpa using h

/-- C10 counterexample: the mapping from "u" to the value containing the
line "a " with a trailing blank satisfies every condition of the claim —
the key is stripped, non-empty and newline-free, the value as a whole
equals its own strip, and no value line begins with a marker — yet the
loader rstrips every line, so the round trip returns "a\nb" instead of
"a \nb". -/
theorem c10_counterexample :
    pyStripCs ("a \nb".data) = "a \nb".data
    ∧ pyStripCs ("u".data) = "u".data
    ∧ ('\n' ∉ "u".data)
    ∧ (∀ q ∈ splitNL ("a \nb".data),
        urlMarker.isPrefixOf q = false ∧ endMarker.isPrefixOf q = false)
    ∧ load_all_contents (some (save_all_contents [("u", "a \nb")])) = [("u", "a\nb")]
    ∧ load_all_contents (some (save_all_contents [("u", "a \nb")])) ≠ [("u", "a \nb")] := by
  refine ⟨by decide, by decide, by decide, by decide, by decide, by decide⟩

/-- C10 amended: the round trip load_all_contents after
save_all_contents is the identity on every finite mapping whose keys are
pairwise distinct, non-empty, stripped, newline-free strings that contain
no occurrence of the URL marker "=== URL: ", and whose values are
stripped as a whole, have no trailing whitespace on any individual line,
and have no line beginning with "=== URL: " or "=== END ===". -/
theorem c10_roundtrip (m : List (String × String))
    (hnodup : (m.map Prod.fst).Nodup)
    (hkey : ∀ p ∈ m, p.1 ≠ "" ∧ pyStripCs p.1.data = p.1.data ∧ '\n' ∉ p.1.data
      ∧ hasSub urlMarker p.1.data = false)
    (hval : ∀ p ∈ m, pyStripCs p.2.data = p.2.data ∧ ∀ q ∈ splitNL p.2.data,
      urlMarker.isPrefixOf q = false ∧ endMarker.isPrefixOf q = false ∧ pyRstripCs q = q) :
    load_all_contents (some (save_all_contents m)) = m := by
  have hdata : Function.Injective String.data := by
    intro a b hab
    cases a
    cases b
    exact congrArg String.mk hab
  have hcs := load_save_cs (m.map (fun p => (p.1.data, p.2.data)))
    (by
      rw [show (m.map (fun p => (p.1.data, p.2.data))).map Prod.fst
          = (m.map Prod.fst).map String.data from by
        rw [List.map_map, List.map_map]; rfl]
      exact hnodup.map hdata)
    (by
      intro q hq
      obtain ⟨p, hp, rfl⟩ := List.mem_map.1 hq
      obtain ⟨h1, h2, h3, h4⟩ := hkey p hp
      exact ⟨fun he => h1 (hdata he), h2, h3, h4⟩)
    (by
      intro q hq
      obtain ⟨p, hp, rfl⟩ := List.mem_map.1 hq
      exact hval p hp)
  unfold load_all_contents save_all_contents
  dsimp only
  rw [hcs, List.map_map]
  rw [show ((fun p => (String.mk p.1, String.mk p.2))
      ∘ (fun p : String × String => (p.1.data, p.2.data))) = id from by
    funext p
    obtain ⟨a, b⟩ := p
    cases a
    cases b
    rfl]
  exact List.map_id m

/-- Witness for C10 on a concrete two-entry mapping with a multi-line
value. -/
theorem c10_roundtrip_witness :
    load_all_contents (some (save_all_contents
      [("https://a.com", "First Headline\nSecond Headline"), ("https://b.com", "Only One")]))
    = [("https://a.com", "First Headline\nSecond Headline"), ("https://b.com", "Only One")] :=
  c10_roundtrip
    [("https://a.com", "First Headline\nSecond Headline"), ("https://b.com", "Only One")]
    (by decide) (by decide) (by decide)

end MonitorTitulos
